import Mathlib

/-!
Verification of `src/transfer/style_transfer.py` (neural style transfer).

The file shallowly embeds the core of the program:
* `gram_matrix` — the Gram-matrix texture statistic (lines 71-82);
* `ContentLoss` / `StyleLoss` — the loss-tap modules (lines 56-68, 85-94);
* `get_style_model_and_losses` — pipeline assembly with tap insertion,
  layer substitution and truncation (lines 113-174);
* `run_style_transfer` — the optimizer loop (lines 188-239), with the
  numeric backend (model evaluation through the pretrained backbone and the
  LBFGS parameter updates) abstracted as oracles, since the pretrained
  convolutional weights are an external collaborator.

Tensors are modelled over `ℚ`; a 4D tensor of shape `[a, b, c, d]` is a
function `Fin a → Fin b → Fin c → Fin d → ℚ`, and the flattened image that
the optimizer clamps is a `List ℚ`.
-/

/-! ## Tensors and numeric utilities -/

/-- A 4D tensor of shape `[a, b, c, d]` with rational entries. -/
def Tensor4 (a b c d : ℕ) : Type := Fin a → Fin b → Fin c → Fin d → ℚ

/-- `torch.clamp(x, 0, 1)` on a single scalar. -/
def clamp01 (x : ℚ) : ℚ := min (max x 0) 1

/-- `input_img.data.clamp_(0, 1)` on the flattened synthesized image. -/
def clampImage (img : List ℚ) : List ℚ := img.map clamp01

/-- `F.mse_loss` (mean reduction) between two 4D tensors of the same shape
(shape equality is guaranteed by construction in the source). -/
def mse_loss (a b c d : ℕ) (x y : Tensor4 a b c d) : ℚ :=
  (∑ i : Fin a, ∑ j : Fin b, ∑ p : Fin c, ∑ q : Fin d,
    (x i j p q - y i j p q) ^ 2) / ((a : ℚ) * b * c * d)

/-! ## `gram_matrix` (lines 71-82)

`features = input.view(a * b, c * d)` is the row-major reshape: flat row
index `i` decodes to `(i / b, i % b)` and flat column index `k` to
`(k / d, k % d)`, which is exactly `Fin.divNat` / `Fin.modNat`.
`G = torch.mm(features, features.t())`, then `G.div(a * b * c * d)`. -/

/-- The reshaped feature matrix `input.view(a * b, c * d)`. -/
def featuresView (a b c d : ℕ) (input : Tensor4 a b c d) :
    Fin (a * b) → Fin (c * d) → ℚ :=
  fun i k => input i.divNat i.modNat k.divNat k.modNat

/-- `gram_matrix` from the source: `features @ features.t() / (a*b*c*d)`. -/
def gram_matrix (a b c d : ℕ) (input : Tensor4 a b c d) :
    Matrix (Fin (a * b)) (Fin (a * b)) ℚ :=
  fun i j =>
    (∑ k : Fin (c * d), featuresView a b c d input i k * featuresView a b c d input j k) /
      ((a : ℚ) * b * c * d)

/-- A permutation of the spatial positions of a 4D activation: every feature
map has its pixels shuffled by the same permutation `σ` of `Fin c × Fin d`. -/
def spatialPermute (a b c d : ℕ) (σ : Equiv.Perm (Fin c × Fin d))
    (input : Tensor4 a b c d) : Tensor4 a b c d :=
  fun i j p q => input i j (σ (p, q)).1 (σ (p, q)).2

/-! ## `ContentLoss` and `StyleLoss` (lines 56-68 and 85-94)

Each tap module carries an immutable target (captured and detached at
construction; `detach` is a no-op on values) and a mutable `loss` field that
is absent until the first forward pass (`Option ℚ`, set by `forward`).
`forward` is modelled as state passing: it returns the updated module
together with its output tensor. -/

structure ContentLoss (a b c d : ℕ) where
  target : Tensor4 a b c d
  loss : Option ℚ

/-- `ContentLoss.__init__`: store the detached target, no loss yet. -/
def ContentLoss.init (a b c d : ℕ) (target : Tensor4 a b c d) :
    ContentLoss a b c d :=
  { target := target, loss := none }

/-- `ContentLoss.forward`: record `mse_loss(input, target)` and return the
input unchanged. -/
def ContentLoss.forward (a b c d : ℕ) (m : ContentLoss a b c d)
    (input : Tensor4 a b c d) : ContentLoss a b c d × Tensor4 a b c d :=
  ({ target := m.target, loss := some (mse_loss a b c d input m.target) }, input)

structure StyleLoss (a b c d : ℕ) where
  target : Matrix (Fin (a * b)) (Fin (a * b)) ℚ
  loss : Option ℚ

/-- `F.mse_loss` (mean reduction) between two square matrices of size `n`. -/
def mseMatrix (n : ℕ) (x y : Matrix (Fin n) (Fin n) ℚ) : ℚ :=
  (∑ i : Fin n, ∑ j : Fin n, (x i j - y i j) ^ 2) / ((n : ℚ) * n)

/-- `StyleLoss.__init__`: store the detached Gram matrix of the target
feature, no loss yet. -/
def StyleLoss.init (a b c d : ℕ) (target_feature : Tensor4 a b c d) :
    StyleLoss a b c d :=
  { target := gram_matrix a b c d target_feature, loss := none }

/-- `StyleLoss.forward`: record `mse_loss(gram_matrix(input), target)` and
return the input unchanged. -/
def StyleLoss.forward (a b c d : ℕ) (m : StyleLoss a b c d)
    (input : Tensor4 a b c d) : StyleLoss a b c d × Tensor4 a b c d :=
  ({ target := m.target,
     loss := some (mseMatrix (a * b) (gram_matrix a b c d input) m.target) }, input)

/-! ## Pipeline assembly: `get_style_model_and_losses` (lines 113-174)

Layer descriptors of the backbone (what `isinstance` inspects, plus the
constructor parameters of the pooling layers, so that the substituted
pooling parameters can be compared with the originals), and the stages of
the rebuilt pipeline. Target
tensors captured for the taps are numeric outputs of the backbone (an
external collaborator) and are irrelevant to the structural claims, so a
tap stage is identified by its module name. -/

/-- A backbone layer as the assembler's `isinstance` chain distinguishes it. -/
inductive PLayer where
  | conv2d : PLayer
  | relu (inplace : Bool) : PLayer
  | maxPool2d (kernel_size stride padding : ℕ) (ceil_mode : Bool) : PLayer
  | batchNorm2d : PLayer
  | unrecognized (className : String) : PLayer
deriving DecidableEq, Repr

/-- `True` for the four layer kinds the assembler accepts. -/
def PLayer.recognized : PLayer → Bool
  | .unrecognized _ => false
  | _ => true

/-- A stage of the rebuilt `nn.Sequential` pipeline, under its module name. -/
inductive Stage where
  | normalization : Stage
  | conv2d (moduleName : String) : Stage
  | relu (moduleName : String) (inplace : Bool) : Stage
  | avgPool2d (moduleName : String) (kernel_size stride padding : ℕ)
      (ceil_mode : Bool) : Stage
  | batchNorm2d (moduleName : String) : Stage
  | contentLoss (moduleName : String) : Stage
  | styleLoss (moduleName : String) : Stage
deriving DecidableEq, Repr

/-- One iteration of the naming / substitution chain (lines 133-149): given
the running conv counter `i` and the next backbone layer, produce the new
counter, the canonical name, and the (possibly substituted) stage, or raise
`Unrecognized layer`.  In-place ReLUs become out-of-place ones; every
`MaxPool2d` becomes `AvgPool2d(kernel_size=2, stride=2, padding=0,
ceil_mode=False)` — the literal constants of line 145. -/
def canonicalStep (i : ℕ) : PLayer → Except String (ℕ × String × Stage)
  | .conv2d =>
      .ok (i + 1, "conv_" ++ toString (i + 1), .conv2d ("conv_" ++ toString (i + 1)))
  | .relu _ =>
      .ok (i, "relu_" ++ toString i, .relu ("relu_" ++ toString i) false)
  | .maxPool2d _ _ _ _ =>
      .ok (i, "pool_" ++ toString i, .avgPool2d ("pool_" ++ toString i) 2 2 0 false)
  | .batchNorm2d =>
      .ok (i, "bn_" ++ toString i, .batchNorm2d ("bn_" ++ toString i))
  | .unrecognized cls =>
      .error ("Unrecognized layer: " ++ cls)

/-- The walk over `cnn.children()` (lines 131-165): append each named stage,
then append a `ContentLoss` tap when the name is in `content_layers` and a
`StyleLoss` tap when it is in `style_layers` (content checked first), keeping
the two tap modules also in their respective lists. -/
def assembleLoop (content_layers style_layers : List String) :
    List PLayer → ℕ → List Stage → List Stage → List Stage →
    Except String (List Stage × List Stage × List Stage)
  | [], _, model, style_losses, content_losses =>
      .ok (model, style_losses, content_losses)
  | layer :: rest, i, model, style_losses, content_losses =>
    match canonicalStep i layer with
    | .error e => .error e
    | .ok (i2, name, stage) =>
      let model1 := model ++ [stage]
      let model2 := if name ∈ content_layers then
          model1 ++ [Stage.contentLoss ("content_loss_" ++ toString i2)] else model1
      let content2 := if name ∈ content_layers then
          content_losses ++ [Stage.contentLoss ("content_loss_" ++ toString i2)]
        else content_losses
      let model3 := if name ∈ style_layers then
          model2 ++ [Stage.styleLoss ("style_loss_" ++ toString i2)] else model2
      let style2 := if name ∈ style_layers then
          style_losses ++ [Stage.styleLoss ("style_loss_" ++ toString i2)]
        else style_losses
      assembleLoop content_layers style_layers rest i2 model3 style2 content2

/-- Is this stage one of the inserted loss taps? (the `isinstance` test of
line 169). -/
def isTap : Stage → Bool
  | .contentLoss _ => true
  | .styleLoss _ => true
  | _ => false

/-- The backward scan `for i in range(len(model)-1, -1, -1): if tap: break`
(lines 168-170), started at index `j`: the value of `i` when the loop stops
(`0` when it falls through without ever finding a tap). -/
def trimIndexAux (model : List Stage) : ℕ → ℕ
  | 0 => 0
  | j + 1 =>
      if isTap (model.getD (j + 1) Stage.normalization) then j + 1
      else trimIndexAux model j

/-- The index kept by the trimming loop, scanning from `len(model) - 1`. -/
def trimIndex (model : List Stage) : ℕ :=
  trimIndexAux model (model.length - 1)

/-- `get_style_model_and_losses` (lines 113-174): deep-copy the backbone
(identity on values), start the pipeline with the `Normalization` stage,
walk the layers inserting taps, then truncate with `model = model[:(i+1)]`.
Returns `(model, style_losses, content_losses)`. -/
def get_style_model_and_losses (cnn : List PLayer)
    (content_layers style_layers : List String) :
    Except String (List Stage × List Stage × List Stage) :=
  match assembleLoop content_layers style_layers cnn 0 [Stage.normalization] [] [] with
  | .error e => .error e
  | .ok (model, style_losses, content_losses) =>
      .ok (model.take (trimIndex model + 1), style_losses, content_losses)

/-- The canonical names generated along the walk, in order (used to express
"a tap depth that never occurs among the backbone's layer names"). -/
def layerNames : List PLayer → ℕ → List String
  | [], _ => []
  | layer :: rest, i =>
    match canonicalStep i layer with
    | .error _ => []
    | .ok (i2, name, _) => name :: layerNames rest i2

/-- Default `content_layers` of `get_style_model_and_losses` (line 115). -/
def default_content_layers : List String := ["conv_5"]

/-- Default `style_layers` of `get_style_model_and_losses` (line 116). -/
def default_style_layers : List String := ["conv_1", "conv_2", "conv_3", "conv_4"]

/-- Default `content_layers` of `run_style_transfer` (line 190). -/
def run_content_layers : List String := ["conv_5"]

/-- Default `style_layers` of `run_style_transfer` (line 190). -/
def run_style_layers : List String := ["conv_1", "conv_3", "conv_4"]

/-! ## The optimizer loop: `run_style_transfer` (lines 188-239)

The numeric backend is abstracted behind an `Oracle`:

* `styleLossesAt` / `contentLossesAt` give the `.loss` values left on the
  tap modules by `model(input_img)` at a given evaluation, as a function of
  the evaluation counter and of the (clamped) image — the pretrained
  backbone the taps sit inside is an external collaborator;
* `update` is the LBFGS parameter update applied to `input_img` after a
  closure evaluation (the optimizer mutates the image only between closure
  calls, never inside the closure body, whose only write is the clamp);
* `calls` is the number of times `optimizer.step` invokes the closure on a
  given outer iteration (LBFGS line search invokes it at least once).

Loss values live in `Val`, which has an explicit non-finite element `nan`
to express IEEE non-finiteness; `nan` is absorbing for `+` and `*`. -/

/-- A loss value: a finite rational or a non-finite (`nan`/`inf`) marker. -/
inductive Val where
  | num (q : ℚ) : Val
  | nan : Val
deriving DecidableEq, Repr

/-- Addition of loss values; non-finite absorbs. -/
def Val.add : Val → Val → Val
  | .num a, .num b => .num (a + b)
  | _, _ => .nan

/-- Multiplication of loss values; non-finite absorbs. -/
def Val.mul : Val → Val → Val
  | .num a, .num b => .num (a * b)
  | _, _ => .nan

/-- `torch.isfinite` on a loss value. -/
def Val.isFinite : Val → Bool
  | .num _ => true
  | .nan => false

/-- The mutable state of one run: the synthesized image, the step counter
`run[0]`, and the logs of the step numbers at which a snapshot was saved
(line 229) and at which progress scores were printed (lines 223-225). -/
structure RunState where
  img : List ℚ
  run : ℕ
  snaps : List ℕ
  prints : List ℕ
deriving DecidableEq, Repr

/-- The external numeric behaviors the loop interacts with. -/
structure Oracle where
  styleLossesAt : ℕ → List ℚ → List Val
  contentLossesAt : ℕ → List ℚ → List Val
  update : ℕ → List ℚ → List ℚ
  calls : ℕ → ℕ

/-- One evaluation of `closure` (lines 201-232): clamp the image in place,
evaluate the model (leaving `.loss` on every tap), sum the style and content
scores, scale by the weights, form the total loss, increment the counter,
print scores every 10 steps, save a snapshot every 25 steps, and return
`style_score + content_score`.  Nothing in the body branches on the loss
value, and the only write to the image is the clamp. -/
def closureStep (o : Oracle) (style_weight content_weight : ℚ)
    (s : RunState) : RunState × Val :=
  let img1 := clampImage s.img
  let style_score :=
    ((o.styleLossesAt s.run img1).foldl Val.add (Val.num 0)).mul (Val.num style_weight)
  let content_score :=
    ((o.contentLossesAt s.run img1).foldl Val.add (Val.num 0)).mul (Val.num content_weight)
  let loss := style_score.add content_score
  let r := s.run + 1
  let prints1 := if r % 10 = 0 then s.prints ++ [r] else s.prints
  let snaps1 := if r % 25 = 0 then s.snaps ++ [r] else s.snaps
  ({ img := img1, run := r, snaps := snaps1, prints := prints1 }, loss)

/-- One closure evaluation followed by the optimizer's parameter update. -/
def evalOnce (o : Oracle) (style_weight content_weight : ℚ)
    (s : RunState) : RunState :=
  let s1 := (closureStep o style_weight content_weight s).1
  { s1 with img := o.update s1.run s1.img }

/-- `n` consecutive closure evaluations inside one `optimizer.step`. -/
def doCalls (o : Oracle) (style_weight content_weight : ℚ) :
    ℕ → RunState → RunState
  | 0, s => s
  | n + 1, s => doCalls o style_weight content_weight n
      (evalOnce o style_weight content_weight s)

/-- The `while run[0] <= num_steps` loop (lines 199-234), written with fuel.
With `num_steps + 1` fuel the fueled loop coincides with the source's while
loop whenever every `optimizer.step` evaluates the closure at least once,
since each outer iteration then increases `run[0]` by at least one. -/
def outerLoop (o : Oracle) (style_weight content_weight : ℚ) (num_steps : ℕ) :
    ℕ → ℕ → RunState → RunState
  | 0, _, s => s
  | fuel + 1, iter, s =>
      if s.run ≤ num_steps then
        outerLoop o style_weight content_weight num_steps fuel (iter + 1)
          (doCalls o style_weight content_weight (o.calls iter) s)
      else s

/-- `run_style_transfer` (lines 188-239): run the loop from counter `0`,
then apply the final `input_img.data.clamp_(0, 1)` and return the image
(together with the rest of the run's observable state). -/
def run_style_transfer (o : Oracle) (style_weight content_weight : ℚ)
    (num_steps : ℕ) (img0 : List ℚ) : RunState :=
  let s := outerLoop o style_weight content_weight num_steps (num_steps + 1) 0
    { img := img0, run := 0, snaps := [], prints := [] }
  { s with img := clampImage s.img }

/-- The step numbers in `1..n` that are multiples of `m` (the cadence at
which the loop prints scores for `m = 10` and saves snapshots for `m = 25`). -/
def cadence (m n : ℕ) : List ℕ :=
  ((List.range n).map (fun k => k + 1)).filter (fun k => decide (k % m = 0))

/-! ## Gram-matrix lemmas and claims C3, C4 -/

/-- Decoding the flat index produced by `finProdFinEquiv`: first component. -/
theorem divNat_finProdFinEquiv {c d : ℕ} (p : Fin c × Fin d) :
    (finProdFinEquiv p).divNat = p.1 := by
  have h := finProdFinEquiv.symm_apply_apply p
  rw [finProdFinEquiv_symm_apply] at h
  exact congrArg Prod.fst h

/-- Decoding the flat index produced by `finProdFinEquiv`: second component. -/
theorem modNat_finProdFinEquiv {c d : ℕ} (p : Fin c × Fin d) :
    (finProdFinEquiv p).modNat = p.2 := by
  have h := finProdFinEquiv.symm_apply_apply p
  rw [finProdFinEquiv_symm_apply] at h
  exact congrArg Prod.snd h

/-- The inner product of two rows of the reshaped feature matrix, written as
a sum over unflattened spatial positions. -/
theorem featuresView_inner_eq (a b c d : ℕ) (x : Tensor4 a b c d)
    (i j : Fin (a * b)) :
    (∑ k : Fin (c * d), featuresView a b c d x i k * featuresView a b c d x j k) =
      ∑ p : Fin c × Fin d,
        x i.divNat i.modNat p.1 p.2 * x j.divNat j.modNat p.1 p.2 := by
  rw [← Equiv.sum_comp finProdFinEquiv
    (fun k : Fin (c * d) => featuresView a b c d x i k * featuresView a b c d x j k)]
  refine Finset.sum_congr rfl fun p _ => ?_
  simp [featuresView, divNat_finProdFinEquiv, modNat_finProdFinEquiv]

/-- C3: for every 4D input tensor, `gram_matrix` returns a matrix equal to
its own transpose, and its value is unchanged when the spatial positions
inside the feature maps are permuted (by any permutation `σ`, applied
uniformly to every feature map). -/
theorem gram_matrix_symm_and_spatial_perm_invariant (a b c d : ℕ)
    (input : Tensor4 a b c d) (σ : Equiv.Perm (Fin c × Fin d)) :
    gram_matrix a b c d input = (gram_matrix a b c d input).transpose ∧
    gram_matrix a b c d (spatialPermute a b c d σ input) =
      gram_matrix a b c d input := by
  constructor
  · funext i j
    show gram_matrix a b c d input i j = gram_matrix a b c d input j i
    unfold gram_matrix
    congr 1
    refine Finset.sum_congr rfl fun k _ => ?_
    ring
  · funext i j
    unfold gram_matrix
    congr 1
    rw [featuresView_inner_eq, featuresView_inner_eq]
    have hperm : ∀ p : Fin c × Fin d,
        spatialPermute a b c d σ input i.divNat i.modNat p.1 p.2 *
          spatialPermute a b c d σ input j.divNat j.modNat p.1 p.2 =
        input i.divNat i.modNat (σ p).1 (σ p).2 *
          input j.divNat j.modNat (σ p).1 (σ p).2 := by
      intro p
      simp [spatialPermute]
    rw [Finset.sum_congr rfl fun p _ => hperm p]
    exact Equiv.sum_comp σ
      (fun p : Fin c × Fin d =>
        input i.divNat i.modNat p.1 p.2 * input j.divNat j.modNat p.1 p.2)

/-- C4: the forward pass of `ContentLoss` and of `StyleLoss` returns its
input unchanged, and the only field of the module it modifies is `.loss`:
the stored target is never updated. -/
theorem loss_forward_identity_and_frame :
    (∀ (a b c d : ℕ) (m : ContentLoss a b c d) (input : Tensor4 a b c d),
      (ContentLoss.forward a b c d m input).2 = input ∧
      (ContentLoss.forward a b c d m input).1.target = m.target) ∧
    (∀ (a b c d : ℕ) (m : StyleLoss a b c d) (input : Tensor4 a b c d),
      (StyleLoss.forward a b c d m input).2 = input ∧
      (StyleLoss.forward a b c d m input).1.target = m.target) :=
  ⟨fun _ _ _ _ _ _ => ⟨rfl, rfl⟩, fun _ _ _ _ _ _ => ⟨rfl, rfl⟩⟩

/-! ## Lemmas about the trimming loop and the assembly walk -/

/-- `getD` into a prefix agrees with `getD` into the list. -/
theorem getD_take_eq {α : Type} (d : α) :
    ∀ (l : List α) (n k : ℕ), k < n → (l.take n).getD k d = l.getD k d
  | [], _, _, _ => by simp
  | _ :: _, 0, _, h => by omega
  | a :: t, n + 1, 0, _ => by simp
  | a :: t, n + 1, k + 1, h => by
      simpa using getD_take_eq d t n k (by omega)

/-- The stop index of the backward scan never exceeds its start index. -/
theorem trimIndexAux_le (m : List Stage) : ∀ j, trimIndexAux m j ≤ j
  | 0 => le_refl 0
  | j + 1 => by
      unfold trimIndexAux
      split
      · exact le_refl _
      · exact le_trans (trimIndexAux_le m j) (by omega)

/-- Every index strictly between the stop index and the start index holds a
stage that is not a tap. -/
theorem trimIndexAux_no_tap_above (m : List Stage) :
    ∀ j k, trimIndexAux m j < k → k ≤ j →
      isTap (m.getD k Stage.normalization) = false
  | 0, k, hlt, hle => by omega
  | j + 1, k, hlt, hle => by
      unfold trimIndexAux at hlt
      by_cases htap : isTap (m.getD (j + 1) Stage.normalization) = true
      · rw [if_pos htap] at hlt; omega
      · rw [if_neg htap] at hlt
        rcases Nat.lt_or_ge k (j + 1) with h | h
        · exact trimIndexAux_no_tap_above m j k hlt (by omega)
        · have : k = j + 1 := by omega
          subst this
          exact Bool.not_eq_true _ ▸ (by simpa using htap)

/-- If some index `t ≤ j` holds a tap, the scan stops at a tap no earlier
than `t`. -/
theorem trimIndexAux_finds_tap (m : List Stage) :
    ∀ j t, t ≤ j → isTap (m.getD t Stage.normalization) = true →
      t ≤ trimIndexAux m j ∧
        isTap (m.getD (trimIndexAux m j) Stage.normalization) = true
  | 0, t, hle, htap => by
      have : t = 0 := by omega
      subst this
      exact ⟨le_refl _, htap⟩
  | j + 1, t, hle, htap => by
      unfold trimIndexAux
      by_cases h : isTap (m.getD (j + 1) Stage.normalization) = true
      · rw [if_pos h]; exact ⟨hle, h⟩
      · rw [if_neg h]
        rcases Nat.lt_or_ge t (j + 1) with h2 | h2
        · exact trimIndexAux_finds_tap m j t (by omega) htap
        · have : t = j + 1 := by omega
          subst this
          exact absurd htap h

/-- If no stage of `m` is a tap, the backward scan falls through to `0`. -/
theorem trimIndexAux_eq_zero_of_no_tap (m : List Stage)
    (hm : ∀ st ∈ m, isTap st = false) : ∀ j, trimIndexAux m j = 0 := by
  have hget : ∀ x, isTap (m.getD x Stage.normalization) = false := by
    intro x
    rcases Nat.lt_or_ge x m.length with h | h
    · exact hm _ (List.getD_eq_getElem m Stage.normalization h ▸ List.getElem_mem h)
    · rw [List.getD_eq_default m Stage.normalization h]; rfl
  intro j
  induction j with
  | zero => rfl
  | succ j ih =>
    unfold trimIndexAux
    rw [hget (j + 1)]
    simpa using ih

/-- When all layers are recognized, the walk completes without raising. -/
theorem assembleLoop_ok (cl sl : List String) (rest : List PLayer) :
    ∀ (i : ℕ) (model sls cls : List Stage),
      (∀ l ∈ rest, l.recognized = true) →
      ∃ out, assembleLoop cl sl rest i model sls cls = Except.ok out := by
  induction rest with
  | nil => exact fun i model sls cls _ => ⟨(model, sls, cls), rfl⟩
  | cons layer rest ih =>
    intro i model sls cls h
    have hl : layer.recognized = true := h layer (by simp)
    have hrest : ∀ l ∈ rest, l.recognized = true := fun l hm => h l (by simp [hm])
    cases layer with
    | unrecognized s => simp [PLayer.recognized] at hl
    | conv2d => simpa [assembleLoop, canonicalStep] using ih _ _ _ _ hrest
    | relu ip => simpa [assembleLoop, canonicalStep] using ih _ _ _ _ hrest
    | maxPool2d k s p c => simpa [assembleLoop, canonicalStep] using ih _ _ _ _ hrest
    | batchNorm2d => simpa [assembleLoop, canonicalStep] using ih _ _ _ _ hrest

/-- If no generated name lies in `content_layers`, the walk leaves the
content-loss list exactly as it received it. -/
theorem assembleLoop_content_frame (cl sl : List String) (rest : List PLayer) :
    ∀ (i : ℕ) (model sls cls : List Stage) out,
      (∀ n ∈ layerNames rest i, n ∉ cl) →
      assembleLoop cl sl rest i model sls cls = Except.ok out →
      out.2.2 = cls := by
  induction rest with
  | nil =>
    intro i model sls cls out _ h
    cases h
    rfl
  | cons layer rest ih =>
    intro i model sls cls out hn h
    cases hstep : canonicalStep i layer with
    | error e => rw [assembleLoop, hstep] at h; cases h
    | ok v =>
      obtain ⟨i2, name, stage⟩ := v
      rw [assembleLoop, hstep] at h
      have hnames : layerNames (layer :: rest) i = name :: layerNames rest i2 := by
        rw [layerNames, hstep]
      have hname : name ∉ cl := by
        have := hn name
        rw [hnames] at this
        exact this (by simp)
      have hrest : ∀ n ∈ layerNames rest i2, n ∉ cl := by
        intro n hm
        exact hn n (by rw [hnames]; simp [hm])
      simp only [if_neg hname] at h
      exact ih i2 _ _ _ out hrest h

/-- If no generated name lies in `style_layers`, the walk leaves the
style-loss list exactly as it received it. -/
theorem assembleLoop_style_frame (cl sl : List String) (rest : List PLayer) :
    ∀ (i : ℕ) (model sls cls : List Stage) out,
      (∀ n ∈ layerNames rest i, n ∉ sl) →
      assembleLoop cl sl rest i model sls cls = Except.ok out →
      out.2.1 = sls := by
  induction rest with
  | nil =>
    intro i model sls cls out _ h
    cases h
    rfl
  | cons layer rest ih =>
    intro i model sls cls out hn h
    cases hstep : canonicalStep i layer with
    | error e => rw [assembleLoop, hstep] at h; cases h
    | ok v =>
      obtain ⟨i2, name, stage⟩ := v
      rw [assembleLoop, hstep] at h
      have hnames : layerNames (layer :: rest) i = name :: layerNames rest i2 := by
        rw [layerNames, hstep]
      have hname : name ∉ sl := by
        have := hn name
        rw [hnames] at this
        exact this (by simp)
      have hrest : ∀ n ∈ layerNames rest i2, n ∉ sl := by
        intro n hm
        exact hn n (by rw [hnames]; simp [hm])
      simp only [if_neg hname] at h
      exact ih i2 _ _ _ out hrest h

/-- The stage emitted by a successful naming / substitution step is never a
tap (taps are appended only by the membership branches). -/
theorem canonicalStep_not_tap (i : ℕ) (layer : PLayer) (i2 : ℕ) (name : String)
    (stage : Stage) (h : canonicalStep i layer = Except.ok (i2, name, stage)) :
    isTap stage = false := by
  cases layer <;> simp [canonicalStep] at h <;> rw [← h.2.2] <;> rfl

/-- If neither tap set ever matches, the walk only appends non-tap stages
to the pipeline it received. -/
theorem assembleLoop_no_tap_model (cl sl : List String) (rest : List PLayer) :
    ∀ (i : ℕ) (model sls cls : List Stage) out,
      (∀ n ∈ layerNames rest i, n ∉ cl ∧ n ∉ sl) →
      assembleLoop cl sl rest i model sls cls = Except.ok out →
      ∃ extra : List Stage, out.1 = model ++ extra ∧
        ∀ st ∈ extra, isTap st = false := by
  induction rest with
  | nil =>
    intro i model sls cls out _ h
    cases h
    exact ⟨[], by simp, by simp⟩
  | cons layer rest ih =>
    intro i model sls cls out hn h
    cases hstep : canonicalStep i layer with
    | error e => rw [assembleLoop, hstep] at h; cases h
    | ok v =>
      obtain ⟨i2, name, stage⟩ := v
      rw [assembleLoop, hstep] at h
      have hnames : layerNames (layer :: rest) i = name :: layerNames rest i2 := by
        rw [layerNames, hstep]
      have hname : name ∉ cl ∧ name ∉ sl := by
        have := hn name
        rw [hnames] at this
        exact this (by simp)
      have hrest : ∀ n ∈ layerNames rest i2, n ∉ cl ∧ n ∉ sl := by
        intro n hm
        exact hn n (by rw [hnames]; simp [hm])
      simp only [if_neg hname.1, if_neg hname.2] at h
      obtain ⟨extra, hout, hextra⟩ := ih i2 _ _ _ out hrest h
      refine ⟨stage :: extra, by simpa using hout, ?_⟩
      intro st hm
      rcases List.mem_cons.mp hm with h1 | h1
      · exact h1 ▸ canonicalStep_not_tap i layer i2 name stage hstep
      · exact hextra st h1

/-! ## Claim C2: truncation stops exactly at the last tap -/

/-- C2: for every tap-depth configuration, the pipeline returned by
`get_style_model_and_losses` has no stages after the last `ContentLoss` or
`StyleLoss` tap: its number of stages equals the index of the last tap stage
plus one. -/
theorem get_style_model_truncates_at_last_tap
    (cnn : List PLayer) (cl sl : List String) (model sls cls : List Stage)
    (h : get_style_model_and_losses cnn cl sl = Except.ok (model, sls, cls))
    (j : ℕ) (hj : j < model.length)
    (htap : isTap (model.getD j Stage.normalization) = true)
    (hlast : ∀ k, j < k → k < model.length →
      isTap (model.getD k Stage.normalization) = false) :
    model.length = j + 1 := by
  unfold get_style_model_and_losses at h
  cases hA : assembleLoop cl sl cnn 0 [Stage.normalization] [] [] with
  | error e => rw [hA] at h; cases h
  | ok out =>
    obtain ⟨pre, sls0, cls0⟩ := out
    rw [hA] at h
    simp only [Except.ok.injEq, Prod.mk.injEq] at h
    obtain ⟨hm, hs0, hc0⟩ := h
    subst hm
    rw [List.length_take] at hj ⊢
    have hj2 : j < trimIndex pre + 1 ∧ j < pre.length := by
      constructor <;> omega
    have htap2 : isTap (pre.getD j Stage.normalization) = true := by
      rw [getD_take_eq Stage.normalization pre (trimIndex pre + 1) j hj2.1] at htap
      exact htap
    have hfind := trimIndexAux_finds_tap pre (pre.length - 1) j (by omega) htap2
    have hr_le : trimIndexAux pre (pre.length - 1) ≤ pre.length - 1 :=
      trimIndexAux_le pre (pre.length - 1)
    have hr : trimIndex pre = trimIndexAux pre (pre.length - 1) := rfl
    have hlen : min (trimIndex pre + 1) pre.length = trimIndex pre + 1 := by
      rw [hr]; omega
    have hjr : j ≤ trimIndex pre := by rw [hr]; exact hfind.1
    rcases Nat.lt_or_ge j (trimIndex pre) with hlt | hge
    · exfalso
      have h1 := hlast (trimIndex pre) hlt (by rw [List.length_take]; omega)
      rw [getD_take_eq Stage.normalization pre (trimIndex pre + 1) (trimIndex pre)
        (by omega)] at h1
      rw [hr] at h1
      rw [hfind.2] at h1
      cases h1
    · omega

/-- Witness for C2: backbone `[Conv2d]` with content tap `conv_1`; the last
tap of the returned 3-stage pipeline sits at index 2. -/
theorem get_style_model_truncates_at_last_tap_witness :
    get_style_model_and_losses [PLayer.conv2d] ["conv_1"] [] =
      Except.ok ([Stage.normalization, Stage.conv2d "conv_1",
        Stage.contentLoss "content_loss_1"], [],
        [Stage.contentLoss "content_loss_1"]) ∧
    ([Stage.normalization, Stage.conv2d "conv_1",
      Stage.contentLoss "content_loss_1"] : List Stage).length = 2 + 1 :=
  ⟨rfl, get_style_model_truncates_at_last_tap [PLayer.conv2d] ["conv_1"] []
    _ _ _ rfl 2 (by decide) (by decide)
    (fun k h1 h2 =>
      absurd (Nat.lt_of_lt_of_le h1 (Nat.lt_succ_iff.mp h2)) (Nat.lt_irrefl 2))⟩

/-! ## Claim C5: the max-pool substitution hardcodes its parameters -/

/-- The pooling parameters of every average-pooling stage the assembler
emits: kernel 2, stride 2, padding 0, `ceil_mode=False`. -/
def avgPoolFixed : Stage → Prop
  | .avgPool2d _ k s p c => k = 2 ∧ s = 2 ∧ p = 0 ∧ c = false
  | _ => True

/-- C5 counterexample: a backbone whose max-pool has kernel 3, stride 1,
padding 1 is rebuilt with an `AvgPool2d(kernel_size=2, stride=2, padding=0)`
stage, not one with the original max-pool's parameters. -/
theorem maxpool_same_params_counterexample :
    get_style_model_and_losses
        [PLayer.conv2d, PLayer.maxPool2d 3 1 1 false, PLayer.conv2d]
        [] ["conv_2"] =
      Except.ok ([Stage.normalization, Stage.conv2d "conv_1",
          Stage.avgPool2d "pool_1" 2 2 0 false, Stage.conv2d "conv_2",
          Stage.styleLoss "style_loss_2"],
        [Stage.styleLoss "style_loss_2"], []) ∧
    Stage.avgPool2d "pool_1" 2 2 0 false ≠ Stage.avgPool2d "pool_1" 3 1 1 false :=
  ⟨rfl, by decide⟩

/-- Every pipeline stage the walk can append keeps `avgPoolFixed`. -/
theorem assembleLoop_avgpool_fixed (cl sl : List String) (rest : List PLayer) :
    ∀ (i : ℕ) (model sls cls : List Stage) out,
      (∀ st ∈ model, avgPoolFixed st) →
      assembleLoop cl sl rest i model sls cls = Except.ok out →
      ∀ st ∈ out.1, avgPoolFixed st := by
  induction rest with
  | nil =>
    intro i model sls cls out hm h
    cases h
    exact hm
  | cons layer rest ih =>
    intro i model sls cls out hm h
    cases hstep : canonicalStep i layer with
    | error e => rw [assembleLoop, hstep] at h; cases h
    | ok v =>
      obtain ⟨i2, name, stage⟩ := v
      rw [assembleLoop, hstep] at h
      have hstage : avgPoolFixed stage := by
        cases layer <;> simp [canonicalStep] at hstep <;> rw [← hstep.2.2] <;>
          simp [avgPoolFixed]
      have hm1 : ∀ st ∈ model ++ [stage], avgPoolFixed st := by
        intro st hst
        rcases List.mem_append.mp hst with h1 | h1
        · exact hm st h1
        · rw [List.mem_singleton.mp h1]; exact hstage
      by_cases h1 : name ∈ cl <;> by_cases h2 : name ∈ sl <;>
        simp only [h1, h2, if_true, if_false] at h
      · refine ih _ _ _ _ _ ?_ h
        intro st hst
        rcases List.mem_append.mp hst with h3 | h3
        · rcases List.mem_append.mp h3 with h4 | h4
          · exact hm1 st h4
          · rw [List.mem_singleton.mp h4]; exact trivial
        · rw [List.mem_singleton.mp h3]; exact trivial
      · refine ih _ _ _ _ _ ?_ h
        intro st hst
        rcases List.mem_append.mp hst with h3 | h3
        · exact hm1 st h3
        · rw [List.mem_singleton.mp h3]; exact trivial
      · refine ih _ _ _ _ _ ?_ h
        intro st hst
        rcases List.mem_append.mp hst with h3 | h3
        · exact hm1 st h3
        · rw [List.mem_singleton.mp h3]; exact trivial
      · exact ih _ _ _ _ _ hm1 h

/-- C5 amended: during assembly every max-pooling layer is replaced by an
average-pooling stage with the fixed parameters kernel 2, stride 2,
padding 0, `ceil_mode=False`, regardless of the original max-pool's
parameters (these coincide with the original only when the original is a
2/2/0 pool, as in the VGG backbone the driver uses); consequently every
average-pooling stage of any successfully returned pipeline carries those
fixed parameters. -/
theorem maxpool_replaced_by_fixed_avgpool
    (cnn : List PLayer) (cl sl : List String) (model sls cls : List Stage)
    (i k s p : ℕ) (c : Bool)
    (h : get_style_model_and_losses cnn cl sl = Except.ok (model, sls, cls)) :
    canonicalStep i (PLayer.maxPool2d k s p c) =
      Except.ok (i, "pool_" ++ toString i,
        Stage.avgPool2d ("pool_" ++ toString i) 2 2 0 false) ∧
    ∀ st ∈ model, avgPoolFixed st := by
  refine ⟨rfl, ?_⟩
  unfold get_style_model_and_losses at h
  cases hA : assembleLoop cl sl cnn 0 [Stage.normalization] [] [] with
  | error e => rw [hA] at h; cases h
  | ok out =>
    obtain ⟨pre, sls0, cls0⟩ := out
    rw [hA] at h
    simp only [Except.ok.injEq, Prod.mk.injEq] at h
    obtain ⟨hm, _, _⟩ := h
    subst hm
    have hfix := assembleLoop_avgpool_fixed cl sl cnn 0 [Stage.normalization] [] []
      (pre, sls0, cls0)
      (by intro st hst; rw [List.mem_singleton.mp hst]; exact trivial) hA
    exact fun st hst => hfix st (List.take_subset _ _ hst)

/-- Witness for the amended C5, at the counterexample's backbone. -/
theorem maxpool_replaced_by_fixed_avgpool_witness :
    get_style_model_and_losses
        [PLayer.conv2d, PLayer.maxPool2d 3 1 1 false, PLayer.conv2d]
        [] ["conv_2"] =
      Except.ok ([Stage.normalization, Stage.conv2d "conv_1",
          Stage.avgPool2d "pool_1" 2 2 0 false, Stage.conv2d "conv_2",
          Stage.styleLoss "style_loss_2"],
        [Stage.styleLoss "style_loss_2"], []) ∧
    canonicalStep 7 (PLayer.maxPool2d 3 1 1 false) =
      Except.ok (7, "pool_" ++ toString 7,
        Stage.avgPool2d ("pool_" ++ toString 7) 2 2 0 false) :=
  ⟨rfl, (maxpool_replaced_by_fixed_avgpool
    [PLayer.conv2d, PLayer.maxPool2d 3 1 1 false, PLayer.conv2d] [] ["conv_2"]
    _ _ _ 7 3 1 1 false rfl).1⟩

/-! ## Claims C7 and C9: tap depths that never match -/

/-- C7: for a backbone of recognized layers, `get_style_model_and_losses`
raises no error even when a requested tap depth never occurs among the
canonical layer names, and the loss list of a category whose requested
depths never match is empty (a silent no-op for that loss term). -/
theorem missing_tap_depth_silent_empty
    (cnn : List PLayer) (cl sl : List String)
    (hrec : ∀ l ∈ cnn, l.recognized = true) :
    (∃ out, get_style_model_and_losses cnn cl sl = Except.ok out) ∧
    (∀ model sls cls,
      get_style_model_and_losses cnn cl sl = Except.ok (model, sls, cls) →
      ((∀ n ∈ layerNames cnn 0, n ∉ cl) → cls = []) ∧
      ((∀ n ∈ layerNames cnn 0, n ∉ sl) → sls = [])) := by
  obtain ⟨out, hout⟩ := assembleLoop_ok cl sl cnn 0 [Stage.normalization] [] [] hrec
  obtain ⟨pre, sls0, cls0⟩ := out
  constructor
  · refine ⟨(pre.take (trimIndex pre + 1), sls0, cls0), ?_⟩
    unfold get_style_model_and_losses
    rw [hout]
  · intro model sls cls h
    unfold get_style_model_and_losses at h
    rw [hout] at h
    simp only [Except.ok.injEq, Prod.mk.injEq] at h
    obtain ⟨_, hs0, hc0⟩ := h
    constructor
    · intro hn
      rw [← hc0]
      simpa using assembleLoop_content_frame cl sl cnn 0 _ _ _ _ hn hout
    · intro hn
      rw [← hs0]
      simpa using assembleLoop_style_frame cl sl cnn 0 _ _ _ _ hn hout

/-- Witness for C7: a one-conv backbone with taps requested at depths
`conv_7` (content) and `conv_9` (style) that never occur. -/
theorem missing_tap_depth_silent_empty_witness :
    (∀ l ∈ [PLayer.conv2d], PLayer.recognized l = true) ∧
    (∀ n ∈ layerNames [PLayer.conv2d] 0, n ∉ ["conv_7"]) ∧
    (∀ n ∈ layerNames [PLayer.conv2d] 0, n ∉ ["conv_9"]) ∧
    get_style_model_and_losses [PLayer.conv2d] ["conv_7"] ["conv_9"] =
      Except.ok ([Stage.normalization], [], []) ∧
    ([] : List Stage) = [] ∧ ([] : List Stage) = [] :=
  ⟨by decide, by decide, by decide, rfl,
    ((missing_tap_depth_silent_empty [PLayer.conv2d] ["conv_7"] ["conv_9"]
      (by decide)).2 [Stage.normalization] [] [] rfl).1 (by decide),
    ((missing_tap_depth_silent_empty [PLayer.conv2d] ["conv_7"] ["conv_9"]
      (by decide)).2 [Stage.normalization] [] [] rfl).2 (by decide)⟩

/-- C9: when neither tap set matches any canonical layer name, the function
returns the pipeline truncated to the `Normalization` stage alone together
with two empty loss lists — the backward trimming loop falls through with
index 0. -/
theorem no_tap_returns_normalization_only
    (cnn : List PLayer) (cl sl : List String)
    (hrec : ∀ l ∈ cnn, l.recognized = true)
    (hc : ∀ n ∈ layerNames cnn 0, n ∉ cl)
    (hs : ∀ n ∈ layerNames cnn 0, n ∉ sl) :
    get_style_model_and_losses cnn cl sl =
      Except.ok ([Stage.normalization], [], []) := by
  obtain ⟨out, hout⟩ := assembleLoop_ok cl sl cnn 0 [Stage.normalization] [] [] hrec
  obtain ⟨pre, sls0, cls0⟩ := out
  have hcls : cls0 = [] := by
    simpa using assembleLoop_content_frame cl sl cnn 0 _ _ _ _ hc hout
  have hsls : sls0 = [] := by
    simpa using assembleLoop_style_frame cl sl cnn 0 _ _ _ _ hs hout
  obtain ⟨extra, hpre, hextra⟩ :=
    assembleLoop_no_tap_model cl sl cnn 0 [Stage.normalization] [] []
      (pre, sls0, cls0) (fun n hn => ⟨hc n hn, hs n hn⟩) hout
  have hnotap : ∀ st ∈ pre, isTap st = false := by
    intro st hst
    rw [show (pre, sls0, cls0).1 = pre from rfl] at hpre
    rw [hpre] at hst
    rcases List.mem_append.mp hst with h1 | h1
    · rw [List.mem_singleton.mp h1]; rfl
    · exact hextra st h1
  have htrim : trimIndex pre = 0 :=
    trimIndexAux_eq_zero_of_no_tap pre hnotap (pre.length - 1)
  subst hcls
  subst hsls
  unfold get_style_model_and_losses
  rw [hout]
  have hpre2 : pre = Stage.normalization :: extra := by simpa using hpre
  simp only [htrim]
  rw [hpre2]
  rfl

/-- Witness for C9: a `[Conv2d, ReLU]` backbone with tap depths `conv_9`
and `relu_9` that never occur. -/
theorem no_tap_returns_normalization_only_witness :
    (∀ l ∈ [PLayer.conv2d, PLayer.relu true], PLayer.recognized l = true) ∧
    (∀ n ∈ layerNames [PLayer.conv2d, PLayer.relu true] 0, n ∉ ["conv_9"]) ∧
    (∀ n ∈ layerNames [PLayer.conv2d, PLayer.relu true] 0, n ∉ ["relu_9"]) ∧
    get_style_model_and_losses [PLayer.conv2d, PLayer.relu true]
        ["conv_9"] ["relu_9"] =
      Except.ok ([Stage.normalization], [], []) :=
  ⟨by decide, by decide, by decide,
    no_tap_returns_normalization_only [PLayer.conv2d, PLayer.relu true]
      ["conv_9"] ["relu_9"] (by decide) (by decide) (by decide)⟩

/-! ## Claim C10: diverging default tap configurations -/

/-- C10: `run_style_transfer`'s default tap lists are content `[conv_5]`
and style `[conv_1, conv_3, conv_4]`; the latter differs from
`get_style_model_and_losses`'s own default style list
`[conv_1, conv_2, conv_3, conv_4]`, and on a two-conv backbone the two
defaults assemble different pipelines. -/
theorem default_tap_lists_differ :
    run_content_layers = default_content_layers ∧
    run_style_layers ≠ default_style_layers ∧
    get_style_model_and_losses [PLayer.conv2d, PLayer.conv2d]
        run_content_layers run_style_layers =
      Except.ok ([Stage.normalization, Stage.conv2d "conv_1",
          Stage.styleLoss "style_loss_1"],
        [Stage.styleLoss "style_loss_1"], []) ∧
    get_style_model_and_losses [PLayer.conv2d, PLayer.conv2d]
        default_content_layers default_style_layers =
      Except.ok ([Stage.normalization, Stage.conv2d "conv_1",
          Stage.styleLoss "style_loss_1", Stage.conv2d "conv_2",
          Stage.styleLoss "style_loss_2"],
        [Stage.styleLoss "style_loss_1", Stage.styleLoss "style_loss_2"], []) ∧
    ([Stage.normalization, Stage.conv2d "conv_1",
        Stage.styleLoss "style_loss_1"] : List Stage) ≠
      [Stage.normalization, Stage.conv2d "conv_1", Stage.styleLoss "style_loss_1",
        Stage.conv2d "conv_2", Stage.styleLoss "style_loss_2"] :=
  ⟨rfl, by decide, rfl, rfl, by decide⟩

/-! ## Loop lemmas: clamping, step counting, cadence bookkeeping -/

/-- Every entry of a clamped image lies in `[0, 1]`. -/
theorem clampImage_mem_unit (l : List ℚ) : ∀ x ∈ clampImage l, 0 ≤ x ∧ x ≤ 1 := by
  intro x hx
  obtain ⟨y, _, rfl⟩ := List.mem_map.mp hx
  exact ⟨le_min (le_max_right y 0) zero_le_one, min_le_right _ 1⟩

/-- The image state at the end of one closure evaluation is the clamped
image: the clamp on entry is the closure's only write to `input_img`. -/
theorem closureStep_img (o : Oracle) (sw cw : ℚ) (s : RunState) :
    ((closureStep o sw cw s).1).img = clampImage s.img := rfl

/-- A closure evaluation increments the step counter by exactly one. -/
theorem evalOnce_run (o : Oracle) (sw cw : ℚ) (s : RunState) :
    (evalOnce o sw cw s).run = s.run + 1 := rfl

/-- `n` closure evaluations increment the step counter by `n`. -/
theorem doCalls_run (o : Oracle) (sw cw : ℚ) :
    ∀ (n : ℕ) (s : RunState), (doCalls o sw cw n s).run = s.run + n := by
  intro n
  induction n with
  | zero => intro s; rfl
  | succ n ih =>
    intro s
    show (doCalls o sw cw n (evalOnce o sw cw s)).run = s.run + (n + 1)
    rw [ih, evalOnce_run]
    omega

/-- With at least one closure call per optimizer step, enough fuel drives
the counter beyond the budget (the while condition, not the fuel, stops the
loop). -/
theorem outerLoop_run_exceeds (o : Oracle) (sw cw : ℚ) (num_steps : ℕ)
    (hcalls : ∀ i, 1 ≤ o.calls i) :
    ∀ (fuel iter : ℕ) (s : RunState), num_steps < s.run + fuel →
      num_steps < (outerLoop o sw cw num_steps fuel iter s).run := by
  intro fuel
  induction fuel with
  | zero =>
    intro iter s h
    simpa [outerLoop] using h
  | succ fuel ih =>
    intro iter s h
    show num_steps <
      (if s.run ≤ num_steps then
        outerLoop o sw cw num_steps fuel (iter + 1)
          (doCalls o sw cw (o.calls iter) s)
      else s).run
    by_cases hc : s.run ≤ num_steps
    · rw [if_pos hc]
      refine ih (iter + 1) _ ?_
      rw [doCalls_run]
      have := hcalls iter
      omega
    · rw [if_neg hc]
      omega

/-- The multiples of `m` among `1..n+1` extend those among `1..n`. -/
theorem cadence_succ (m n : ℕ) :
    cadence m (n + 1) =
      cadence m n ++ (if (n + 1) % m = 0 then [n + 1] else []) := by
  unfold cadence
  rw [List.range_succ, List.map_append, List.filter_append]
  by_cases h : (n + 1) % m = 0 <;> simp [h]

/-- Membership in the cadence list. -/
theorem cadence_mem (m n k : ℕ) :
    k ∈ cadence m n ↔ 1 ≤ k ∧ k ≤ n ∧ k % m = 0 := by
  unfold cadence
  simp only [List.mem_filter, List.mem_map, List.mem_range, decide_eq_true_eq]
  constructor
  · rintro ⟨⟨j, hj, rfl⟩, hm⟩
    exact ⟨by omega, by omega, hm⟩
  · rintro ⟨h1, h2, hm⟩
    exact ⟨⟨k - 1, by omega, by omega⟩, hm⟩

/-- There are exactly `⌊n / m⌋` multiples of `m` among `1..n`. -/
theorem cadence_length (m n : ℕ) : (cadence m n).length = n / m := by
  induction n with
  | zero => simp [cadence]
  | succ n ih =>
    rw [cadence_succ, List.length_append, ih, Nat.succ_div]
    by_cases h : (n + 1) % m = 0
    · rw [if_pos h, if_pos (Nat.dvd_of_mod_eq_zero h)]
      simp
    · rw [if_neg h, if_neg (fun hd => h (Nat.mod_eq_zero_of_dvd hd))]
      simp

/-- The loop invariant tying the two logs to the step counter: snapshots
were saved exactly at the multiples of 25 and scores printed exactly at the
multiples of 10 among the completed steps. -/
def SnapInv (s : RunState) : Prop :=
  s.snaps = cadence 25 s.run ∧ s.prints = cadence 10 s.run

/-- One closure evaluation preserves the cadence invariant. -/
theorem closureStep_snapInv (o : Oracle) (sw cw : ℚ) (s : RunState)
    (h : SnapInv s) : SnapInv (closureStep o sw cw s).1 := by
  obtain ⟨h1, h2⟩ := h
  constructor
  · show (if (s.run + 1) % 25 = 0 then s.snaps ++ [s.run + 1] else s.snaps) =
      cadence 25 (s.run + 1)
    rw [cadence_succ, h1]
    by_cases hc : (s.run + 1) % 25 = 0 <;> simp [hc]
  · show (if (s.run + 1) % 10 = 0 then s.prints ++ [s.run + 1] else s.prints) =
      cadence 10 (s.run + 1)
    rw [cadence_succ, h2]
    by_cases hc : (s.run + 1) % 10 = 0 <;> simp [hc]

/-- The optimizer's parameter update touches only the image. -/
theorem evalOnce_snapInv (o : Oracle) (sw cw : ℚ) (s : RunState)
    (h : SnapInv s) : SnapInv (evalOnce o sw cw s) :=
  closureStep_snapInv o sw cw s h

/-- Any number of closure evaluations preserves the cadence invariant. -/
theorem doCalls_snapInv (o : Oracle) (sw cw : ℚ) :
    ∀ (n : ℕ) (s : RunState), SnapInv s → SnapInv (doCalls o sw cw n s) := by
  intro n
  induction n with
  | zero => exact fun s h => h
  | succ n ih => exact fun s h => ih _ (evalOnce_snapInv o sw cw s h)

/-- The outer while loop preserves the cadence invariant. -/
theorem outerLoop_snapInv (o : Oracle) (sw cw : ℚ) (num_steps : ℕ) :
    ∀ (fuel iter : ℕ) (s : RunState), SnapInv s →
      SnapInv (outerLoop o sw cw num_steps fuel iter s) := by
  intro fuel
  induction fuel with
  | zero => exact fun iter s h => h
  | succ fuel ih =>
    intro iter s h
    show SnapInv (if s.run ≤ num_steps then
      outerLoop o sw cw num_steps fuel (iter + 1)
        (doCalls o sw cw (o.calls iter) s)
      else s)
    by_cases hc : s.run ≤ num_steps
    · rw [if_pos hc]
      exact ih (iter + 1) _ (doCalls_snapInv o sw cw _ s h)
    · rw [if_neg hc]
      exact h

/-- The whole run satisfies the cadence invariant (the final clamp only
touches the image). -/
theorem run_style_transfer_snapInv (o : Oracle) (sw cw : ℚ)
    (num_steps : ℕ) (img0 : List ℚ) :
    SnapInv (run_style_transfer o sw cw num_steps img0) :=
  outerLoop_snapInv o sw cw num_steps (num_steps + 1) 0
    { img := img0, run := 0, snaps := [], prints := [] } ⟨rfl, rfl⟩

/-! ## Claims C1, C6, C8 about the optimizer loop -/

/-- C1: after every optimizer evaluation of the closure, all pixel values of
the synthesized image lie in `[0, 1]` (the clamp on entry is the closure's
only write to the image), and the image returned after the step counter
exceeds the iteration budget has all pixel values in `[0, 1]` (the final
clamp of line 237). -/
theorem synthesized_image_in_unit_range (o : Oracle) (sw cw : ℚ) :
    (∀ s : RunState, ∀ x ∈ ((closureStep o sw cw s).1).img, 0 ≤ x ∧ x ≤ 1) ∧
    (∀ (num_steps : ℕ) (img0 : List ℚ),
      ∀ x ∈ (run_style_transfer o sw cw num_steps img0).img, 0 ≤ x ∧ x ≤ 1) :=
  ⟨fun s => clampImage_mem_unit s.img,
    fun num_steps img0 =>
      clampImage_mem_unit
        (outerLoop o sw cw num_steps (num_steps + 1) 0
          { img := img0, run := 0, snaps := [], prints := [] }).img⟩

/-- A concrete benign oracle: no taps, identity optimizer update, one
closure call per step. -/
def oUnit : Oracle :=
  { styleLossesAt := fun _ _ => [], contentLossesAt := fun _ _ => [],
    update := fun _ img => img, calls := fun _ => 1 }

/-- Witness for C1: an out-of-range pixel value 2 is clamped to 1 by the
first closure evaluation, and 1 lies in `[0, 1]`. -/
theorem synthesized_image_in_unit_range_witness :
    (1 : ℚ) ∈ ((closureStep oUnit 1 1
      { img := [2], run := 0, snaps := [], prints := [] }).1).img ∧
    (0 ≤ (1 : ℚ) ∧ (1 : ℚ) ≤ 1) :=
  ⟨by decide,
    (synthesized_image_in_unit_range oUnit 1 1).1
      { img := [2], run := 0, snaps := [], prints := [] } 1 (by decide)⟩

/-- An oracle whose style tap reports a non-finite loss at every evaluation
(the closure's total loss is then non-finite at every evaluation). -/
def oNan : Oracle :=
  { styleLossesAt := fun _ _ => [Val.nan], contentLossesAt := fun _ _ => [],
    update := fun _ img => img, calls := fun _ => 1 }

/-- C6 counterexample: with a non-finite total loss at every single
evaluation, `run_style_transfer` neither detects it nor aborts — the run
performs all three evaluations of its budget (`num_steps = 2`) and returns
normally. -/
theorem nonfinite_loss_not_detected :
    (∀ s : RunState, (closureStep oNan 1 1 s).2 = Val.nan) ∧
    Val.isFinite (closureStep oNan 1 1
      { img := [], run := 0, snaps := [], prints := [] }).2 = false ∧
    (run_style_transfer oNan 1 1 2 []).run = 3 :=
  ⟨fun _ => rfl, rfl, by decide⟩

/-- C6 amended: `run_style_transfer` performs no finiteness check on the
loss: for every oracle — in particular one whose losses are non-finite at
every evaluation — the loop never aborts and runs until the step counter
exceeds the iteration budget (given that the optimizer evaluates the
closure at least once per step, as LBFGS does). -/
theorem run_never_aborts (o : Oracle) (sw cw : ℚ) (num_steps : ℕ)
    (img0 : List ℚ) (hcalls : ∀ i, 1 ≤ o.calls i) :
    num_steps < (run_style_transfer o sw cw num_steps img0).run :=
  outerLoop_run_exceeds o sw cw num_steps hcalls (num_steps + 1) 0
    { img := img0, run := 0, snaps := [], prints := [] } (by omega)

/-- Witness for the amended C6 at the all-nan oracle. -/
theorem run_never_aborts_witness :
    (∀ i, 1 ≤ oNan.calls i) ∧ 2 < (run_style_transfer oNan 1 1 2 []).run :=
  ⟨fun _ => le_refl 1, run_never_aborts oNan 1 1 2 [] (fun _ => le_refl 1)⟩

/-- C8: over a whole run of `N` optimizer-evaluation steps (with `N ≥ 25`),
snapshots of the synthesized image are written precisely at the steps whose
counter value is a multiple of 25 — exactly `⌊N / 25⌋` of them — and
progress scores are emitted precisely at the steps whose counter value is a
multiple of 10. -/
theorem snapshot_and_progress_cadence (o : Oracle) (sw cw : ℚ)
    (num_steps : ℕ) (img0 : List ℚ)
    (hN : 25 ≤ (run_style_transfer o sw cw num_steps img0).run) :
    (∀ k, k ∈ (run_style_transfer o sw cw num_steps img0).snaps ↔
      1 ≤ k ∧ k ≤ (run_style_transfer o sw cw num_steps img0).run ∧
        k % 25 = 0) ∧
    (run_style_transfer o sw cw num_steps img0).snaps.length =
      (run_style_transfer o sw cw num_steps img0).run / 25 ∧
    (∀ k, k ∈ (run_style_transfer o sw cw num_steps img0).prints ↔
      1 ≤ k ∧ k ≤ (run_style_transfer o sw cw num_steps img0).run ∧
        k % 10 = 0) := by
  obtain ⟨h1, h2⟩ := run_style_transfer_snapInv o sw cw num_steps img0
  refine ⟨fun k => ?_, ?_, fun k => ?_⟩
  · rw [h1]; exact cadence_mem 25 _ k
  · rw [h1]; exact cadence_length 25 _
  · rw [h2]; exact cadence_mem 10 _ k

/-- Witness for C8: with one call per step and a budget of 25, the run
performs 26 evaluations and writes exactly one snapshot, at step 25. -/
theorem snapshot_and_progress_cadence_witness :
    25 ≤ (run_style_transfer oUnit 1 1 25 []).run ∧
    (run_style_transfer oUnit 1 1 25 []).snaps.length =
      (run_style_transfer oUnit 1 1 25 []).run / 25 :=
  ⟨by decide,
    (snapshot_and_progress_cadence oUnit 1 1 25 [] (by decide)).2.1⟩
